import Mathlib

/-!
Shallow embedding of the DML semantic analyzer in
`src/yb/sql/ptree/pt_dml.cc` (YugaByte SQL parse-tree analysis).
Covers table lookup (`PTDmlStmt::LookupTable`), WHERE-clause analysis
(`PTDmlStmt::AnalyzeWhereClause` / `AnalyzeWhereExpr` /
`WhereExprState::AnalyzeColumnOp`), the static-column write
classification (`PTDmlStmt::StaticColumnArgsOnly`) and the USING
(TTL) clause check (`PTDmlStmt::AnalyzeUsingClause`).
-/

namespace YbSql

/-- Comparison operators dispatched in `WhereExprState::AnalyzeColumnOp`.
The constructor `other` stands for every `YQLOperator` that is not one of
EQ, LT, LTE, GT, GTE and hence falls into the `default` case of the switch. -/
inductive YQLOp where
  | eq
  | lt
  | lte
  | gt
  | gte
  | other
  deriving DecidableEq, Repr

/-- Column descriptor, mirroring `ColumnDesc::Init` as filled by
`PTDmlStmt::LookupTable`: position index, hash flag (`idx < num_hash_key_columns`),
primary flag (`idx < num_key_columns`) and the static flag of the schema column.
The value type plays no role in the analyzed claims and is omitted. -/
structure ColumnDesc where
  index : Nat
  is_hash : Bool
  is_primary : Bool
  is_static : Bool
  deriving DecidableEq, Repr

/-- Per-column operator counter (`ColumnOpCounter`): how many EQ, LT-family
and GT-family comparisons on that column have been accepted or started so far. -/
structure ColumnOpCounter where
  eq_count : Nat
  lt_count : Nat
  gt_count : Nat
  deriving DecidableEq, Repr

def ColumnOpCounter.zero : ColumnOpCounter := ⟨0, 0, 0⟩

def ColumnOpCounter.increase_eq (c : ColumnOpCounter) : ColumnOpCounter :=
  { c with eq_count := c.eq_count + 1 }

def ColumnOpCounter.increase_lt (c : ColumnOpCounter) : ColumnOpCounter :=
  { c with lt_count := c.lt_count + 1 }

def ColumnOpCounter.increase_gt (c : ColumnOpCounter) : ColumnOpCounter :=
  { c with gt_count := c.gt_count + 1 }

/-- A validated filter predicate (`ColumnOp`): column descriptor, bound value
(abstracted to a natural number standing for the value expression node),
and the comparison operator. -/
structure ColumnOp where
  desc : ColumnDesc
  value : Nat
  yql_op : YQLOp
  deriving DecidableEq, Repr

/-- Error outcomes of semantic analysis.  The C++ code reports most of them as
`ErrorCode::CQL_STATEMENT_INVALID` with distinct messages; this embedding keeps
one constructor per distinct message so the claims can tell them apart. -/
inductive SemError where
  | systemNamespaceReadonly
  | tableNotFound
  | missingPartitionKey
  | missingKeyCondition
  | illogicalCondition
  | nonKeyColumnInWhere
  | partitionColumnInRangeExpr
  | rangeNotYetSupported
  | illogicalRangeCondition
  | unsupportedOperator
  | invalidTtl (minBound maxBound : Int)
  deriving DecidableEq, Repr

/-- The mutable analysis state `WhereExprState` threaded through the WHERE
expression walk: `ops` is `where_ops_` (residual filter list), `key_ops` is
`key_where_ops_` (one optional slot per key column considered), `op_counters`
is the per-column counter vector, `write_only` the statement kind flag. -/
structure WhereExprState where
  ops : List ColumnOp
  key_ops : List (Option ColumnOp)
  op_counters : List ColumnOpCounter
  write_only : Bool
  deriving DecidableEq, Repr

/-- One leaf comparison of the WHERE conjunction, as handed to
`WhereExprState::AnalyzeColumnOp` by the expression walk: the resolved column
descriptor, the operator, and the bound value expression. -/
structure Leaf where
  desc : ColumnDesc
  yql_op : YQLOp
  value : Nat
  deriving DecidableEq, Repr

/-- Embedding of `WhereExprState::AnalyzeColumnOp`.  Returns the state after
the call together with the optional error; on an error return the mutations
performed before the error (only the EQ counter bump, in the EQ case) are
retained, exactly as in the C++ code where the state lives in the statement
object and survives the early `return`. -/
def analyzeColumnOp (st : WhereExprState) (col_desc : ColumnDesc)
    (op : YQLOp) (value : Nat) : WhereExprState × Option SemError :=
  let counter := st.op_counters.getD col_desc.index ColumnOpCounter.zero
  match op with
  | .eq =>
    if counter.eq_count > 0 || counter.gt_count > 0 || counter.lt_count > 0 then
      (st, some .illogicalCondition)
    else
      let st1 := { st with
        op_counters := st.op_counters.set col_desc.index counter.increase_eq }
      if col_desc.is_hash then
        ({ st1 with key_ops :=
            st1.key_ops.set col_desc.index (some ⟨col_desc, value, .eq⟩) }, none)
      else if col_desc.is_primary then
        if st1.write_only then
          ({ st1 with key_ops :=
              st1.key_ops.set col_desc.index (some ⟨col_desc, value, .eq⟩) }, none)
        else
          ({ st1 with ops := st1.ops ++ [⟨col_desc, value, .eq⟩] }, none)
      else
        (st1, some .nonKeyColumnInWhere)
  | .lt | .lte =>
    if col_desc.is_hash then
      (st, some .partitionColumnInRangeExpr)
    else if col_desc.is_primary then
      if st.write_only then
        (st, some .rangeNotYetSupported)
      else if counter.eq_count > 0 || counter.lt_count > 0 then
        (st, some .illogicalRangeCondition)
      else
        ({ st with
            op_counters := st.op_counters.set col_desc.index counter.increase_lt,
            ops := st.ops ++ [⟨col_desc, value, op⟩] }, none)
    else
      (st, some .nonKeyColumnInWhere)
  | .gt | .gte =>
    if col_desc.is_hash then
      (st, some .partitionColumnInRangeExpr)
    else if col_desc.is_primary then
      if st.write_only then
        (st, some .rangeNotYetSupported)
      else if counter.eq_count > 0 || counter.gt_count > 0 then
        (st, some .illogicalRangeCondition)
      else
        ({ st with
            op_counters := st.op_counters.set col_desc.index counter.increase_gt,
            ops := st.ops ++ [⟨col_desc, value, op⟩] }, none)
    else
      (st, some .nonKeyColumnInWhere)
  | .other =>
    (st, some .unsupportedOperator)

/-- Left-to-right walk over the conjunction of WHERE leaves, calling
`analyzeColumnOp` on each; the first error aborts the walk
(`RETURN_NOT_OK`) and the state reached so far is retained. -/
def analyzeLeaves : WhereExprState → List Leaf → WhereExprState × Option SemError
  | st, [] => (st, none)
  | st, l :: ls =>
    match analyzeColumnOp st l.desc l.yql_op l.value with
    | (st1, some e) => (st1, some e)
    | (st1, none) => analyzeLeaves st1 ls

/-- The DML statement fields relevant to analysis (`PTDmlStmt`):
the column catalog built by `LookupTable`, the key-column counts from the
schema, the `write_only_` flag, the write column arguments (`column_args_`,
one optional populated descriptor per catalog column) and the optional TTL
expression value of the USING clause. -/
structure PTDmlStmt where
  table_columns : List ColumnDesc
  num_key_columns : Nat
  num_hash_key_columns : Nat
  write_only : Bool
  column_args : List (Option ColumnDesc)
  ttl_seconds : Option Int
  deriving DecidableEq, Repr

/-- Embedding of `PTDmlStmt::StaticColumnArgsOnly`: true when the write
touches at least one static column beyond the key columns, no clustering
(range) key column, and no non-static regular column. -/
def PTDmlStmt.StaticColumnArgsOnly (s : PTDmlStmt) : Bool :=
  if s.column_args.isEmpty then
    false
  else
    let write_range_columns :=
      (List.range' s.num_hash_key_columns
          (s.num_key_columns - s.num_hash_key_columns)).any fun idx =>
        (s.column_args.getD idx none).isSome
    let write_static_columns :=
      (List.range' s.num_key_columns
          (s.column_args.length - s.num_key_columns)).any fun idx =>
        match s.column_args.getD idx none with
        | some cd => cd.is_static
        | none => false
    let write_non_static_columns :=
      (List.range' s.num_key_columns
          (s.column_args.length - s.num_key_columns)).any fun idx =>
        match s.column_args.getD idx none with
        | some cd => !cd.is_static
        | none => false
    write_static_columns && !write_range_columns && !write_non_static_columns

/-- Initial `WhereExprState` constructed at the top of
`PTDmlStmt::AnalyzeWhereExpr`, after `AnalyzeWhereClause` has resized
`key_where_ops_` to `num_key_columns` (write) or `num_hash_key_columns`
(read): counters zeroed, one counter per catalog column. -/
def initWhereState (s : PTDmlStmt) : WhereExprState :=
  { ops := []
    key_ops := List.replicate
      (if s.write_only then s.num_key_columns else s.num_hash_key_columns) none
    op_counters := List.replicate s.table_columns.length ColumnOpCounter.zero
    write_only := s.write_only }

/-- The reverse loop of the read post-pass: for `idx` from `n - 1` down to `0`,
push the filled key slot `key_ops[idx]` onto the front of `ops`. -/
def pushFrontHash (key_ops : List (Option ColumnOp)) (ops : List ColumnOp) :
    Nat → List ColumnOp
  | 0 => ops
  | n + 1 =>
    pushFrontHash key_ops
      (match key_ops.getD n none with
       | some op => op :: ops
       | none => ops) n

/-- The number of clustering (range) key columns with at least one recorded
EQ, as counted by the write post-pass loop in `AnalyzeWhereExpr`. -/
def rangeKeysCount (s : PTDmlStmt) (op_counters : List ColumnOpCounter) : Nat :=
  ((List.range' s.num_hash_key_columns
      (s.num_key_columns - s.num_hash_key_columns)).filter fun idx =>
    (op_counters.getD idx ColumnOpCounter.zero).eq_count ≠ 0).length

/-- Result of `AnalyzeWhereExpr` as observed on the statement object:
the final contents of `where_ops_` and `key_where_ops_` plus the returned
status (`none` means OK). -/
structure WhereAnalysisResult where
  where_ops : List ColumnOp
  key_where_ops : List (Option ColumnOp)
  err : Option SemError
  deriving DecidableEq, Repr

/-- Embedding of `PTDmlStmt::AnalyzeWhereExpr`: run the leaf walk, then the
write post-pass (hash completeness, range-key completeness relaxed for
static-only writes) or the read post-pass (degrade a partial hash key to
front-inserted filters and clear the key slots). -/
def PTDmlStmt.AnalyzeWhereExpr (s : PTDmlStmt) (leaves : List Leaf) :
    WhereAnalysisResult :=
  match analyzeLeaves (initWhereState s) leaves with
  | (st, some e) => ⟨st.ops, st.key_ops, some e⟩
  | (st, none) =>
    if s.write_only then
      if (List.range s.num_hash_key_columns).any fun idx =>
          (st.op_counters.getD idx ColumnOpCounter.zero).eq_count = 0 then
        ⟨st.ops, st.key_ops, some .missingKeyCondition⟩
      else
        let range_keys := rangeKeysCount s st.op_counters
        if s.StaticColumnArgsOnly then
          if range_keys ≠ s.num_key_columns - s.num_hash_key_columns ∧
              range_keys ≠ 0 then
            ⟨st.ops, st.key_ops, some .missingKeyCondition⟩
          else if range_keys = 0 then
            ⟨st.ops, st.key_ops.take s.num_hash_key_columns, none⟩
          else
            ⟨st.ops, st.key_ops, none⟩
        else
          if range_keys ≠ s.num_key_columns - s.num_hash_key_columns then
            ⟨st.ops, st.key_ops, some .missingKeyCondition⟩
          else
            ⟨st.ops, st.key_ops, none⟩
    else
      if (List.range s.num_hash_key_columns).any fun idx =>
          (st.key_ops.getD idx none).isNone then
        ⟨pushFrontHash st.key_ops st.ops s.num_hash_key_columns, [], none⟩
      else
        ⟨st.ops, st.key_ops, none⟩

/-- Embedding of `PTDmlStmt::AnalyzeWhereClause`: a missing WHERE clause is an
error for writes (missing partition key) and a full scan for reads; otherwise
size the key slots and analyze the expression. -/
def PTDmlStmt.AnalyzeWhereClause (s : PTDmlStmt)
    (where_clause : Option (List Leaf)) : WhereAnalysisResult :=
  match where_clause with
  | none =>
    if s.write_only then ⟨[], [], some .missingPartitionKey⟩ else ⟨[], [], none⟩
  | some leaves => s.AnalyzeWhereExpr leaves

/-- Modelled from the spec: the TTL bound `kMinTtlSeconds` lives in
`yb/common/table_properties_constants.h`, which is not part of this source
tree; the spec gives the valid range as [0, 630720000]. -/
def kMinTtlSeconds : Int := 0

/-- Modelled from the spec: the TTL bound `kMaxTtlSeconds` lives in
`yb/common/table_properties_constants.h`, which is not part of this source
tree; the spec gives the valid range as [0, 630720000]. -/
def kMaxTtlSeconds : Int := 630720000

/-- Modelled from the spec: `yb::common::IsValidTTLSeconds`, declared in
`yb/common/table_properties_constants.h` outside this source tree, checks the
evaluated TTL lies in the inclusive range [kMinTtlSeconds, kMaxTtlSeconds]. -/
def IsValidTTLSeconds (ttl : Int) : Bool :=
  kMinTtlSeconds ≤ ttl && ttl ≤ kMaxTtlSeconds

/-- Embedding of `PTDmlStmt::AnalyzeUsingClause`: no TTL expression is OK;
otherwise the evaluated TTL must pass `IsValidTTLSeconds`, else the invalid-TTL
error carrying both bounds is raised. -/
def PTDmlStmt.AnalyzeUsingClause (s : PTDmlStmt) : Option SemError :=
  match s.ttl_seconds with
  | none => none
  | some v =>
    if !IsValidTTLSeconds v then
      some (.invalidTtl kMinTtlSeconds kMaxTtlSeconds)
    else
      none

/-- A possibly keyspace-qualified table name (`YBTableName`): optional
namespace part plus the table part. -/
structure TableName where
  namespace_name : Option String
  table_name : String

/-- Modelled from the spec: `YBTableName::is_system`, defined outside this
source tree, recognizes the reserved system keyspace by name. -/
def isSystemNamespace (ns : String) : Bool :=
  ns = "system"

/-- Schema facts returned by the catalog collaborator for `LookupTable`. -/
structure Schema where
  num_columns : Nat
  num_key_columns : Nat
  num_hash_key_columns : Nat

/-- Environment of `PTDmlStmt::LookupTable`: the current keyspace used to
qualify unqualified names, the process-wide
`FLAGS_yb_system_namespace_readonly` gate, and the catalog lookup
(`SemContext::GetTableDesc`), a function from qualified name to optional
schema. -/
structure LookupEnv where
  current_keyspace : String
  system_namespace_readonly : Bool
  catalog : String → String → Option Schema

/-- The keyspace a table name resolves to in `LookupTable`: its own namespace
when qualified, the current keyspace otherwise. -/
def resolvedNamespace (env : LookupEnv) (name : TableName) : String :=
  name.namespace_name.getD env.current_keyspace

/-- Embedding of `PTDmlStmt::LookupTable` up to the schema fetch: qualify the
name, gate system-keyspace writes behind the read-only flag, then consult the
catalog; an absent table is `TableNotFound`. -/
def LookupTable (env : LookupEnv) (write_only : Bool) (name : TableName) :
    Except SemError Schema :=
  let ns := resolvedNamespace env name
  if isSystemNamespace ns && write_only && env.system_namespace_readonly then
    .error .systemNamespaceReadonly
  else
    match env.catalog ns name.table_name with
    | none => .error .tableNotFound
    | some schema => .ok schema

/-- Example hash column h of the spec table T(h int hash, c int primary,
s int static, r int). -/
def hcol : ColumnDesc := ⟨0, true, true, false⟩

/-- Example clustering column c of the spec table T. -/
def ccol : ColumnDesc := ⟨1, false, true, false⟩

/-- Example static column s of the spec table T. -/
def scol : ColumnDesc := ⟨2, false, false, true⟩

/-- Example regular column r of the spec table T. -/
def rcol : ColumnDesc := ⟨3, false, false, false⟩

/-- Catalog of the spec table T. -/
def exTable : List ColumnDesc := [hcol, ccol, scol, rcol]

/-- A read (SELECT) statement over the spec table T. -/
def exRead : PTDmlStmt := ⟨exTable, 2, 1, false, [], none⟩

/-- A write statement over T whose only populated column arg is the static
column s, as in UPDATE T SET s = 1. -/
def exWriteStatic : PTDmlStmt :=
  ⟨exTable, 2, 1, true, [none, none, some scol, none], none⟩

/-- A write statement over T whose only populated column arg is the regular
column r, as in UPDATE T SET r = 1. -/
def exWriteRegular : PTDmlStmt :=
  ⟨exTable, 2, 1, true, [none, none, none, some rcol], none⟩

/-- A single-hash-column table whose write statement populates a column arg
only at the hash position. -/
def exHashArgsOnly : PTDmlStmt := ⟨[hcol], 1, 1, true, [some hcol], none⟩

/-- A read statement over a table with two hash columns and one clustering
column, used to exercise the partial-hash-key post-pass. -/
def exRead2 : PTDmlStmt :=
  ⟨[⟨0, true, true, false⟩, ⟨1, true, true, false⟩, ⟨2, false, true, false⟩],
   3, 2, false, [], none⟩

/-- Claim C2 counterexample: on the read path (write_only = false) an EQ
comparison on the regular column r of the example table is rejected by
AnalyzeColumnOp with the non-key-column error and nothing is appended to the
filter list, refuting the claim that a regular-column comparison is accepted
and appended to where_ops_ on reads. -/
theorem read_regular_column_eq_rejected_cex :
    (analyzeColumnOp (initWhereState exRead) rcol .eq 7).2 =
      some SemError.nonKeyColumnInWhere ∧
    (analyzeColumnOp (initWhereState exRead) rcol .eq 7).1.ops = [] := by
  decide

/-- Claim C2 (amended): a comparison (EQ, LT, LTE, GT or GTE) whose column is
neither hash nor primary is rejected by AnalyzeColumnOp with the
non-key-column error on the read path just as on the write path (given no
prior comparison recorded on that column), and leaves both the filter list
and the key slots unchanged. -/
theorem regular_column_comparison_rejected (st : WhereExprState)
    (cd : ColumnDesc) (op : YQLOp) (v : Nat)
    (hh : cd.is_hash = false) (hp : cd.is_primary = false)
    (hop : op ≠ YQLOp.other)
    (hc : st.op_counters.getD cd.index ColumnOpCounter.zero =
      ColumnOpCounter.zero) :
    (analyzeColumnOp st cd op v).2 = some SemError.nonKeyColumnInWhere ∧
    (analyzeColumnOp st cd op v).1.ops = st.ops ∧
    (analyzeColumnOp st cd op v).1.key_ops = st.key_ops := by
  have hc2 : st.op_counters[cd.index]?.getD ColumnOpCounter.zero =
      ColumnOpCounter.zero := by
    rw [← List.getD_eq_getElem?_getD]; exact hc
  have he : (st.op_counters[cd.index]?.getD ColumnOpCounter.zero).eq_count = 0 := by
    rw [hc2]; rfl
  have hl : (st.op_counters[cd.index]?.getD ColumnOpCounter.zero).lt_count = 0 := by
    rw [hc2]; rfl
  have hg : (st.op_counters[cd.index]?.getD ColumnOpCounter.zero).gt_count = 0 := by
    rw [hc2]; rfl
  cases op with
  | other => exact absurd rfl hop
  | eq => simp [analyzeColumnOp, hh, hp, he, hl, hg]
  | lt => simp [analyzeColumnOp, hh, hp]
  | lte => simp [analyzeColumnOp, hh, hp]
  | gt => simp [analyzeColumnOp, hh, hp]
  | gte => simp [analyzeColumnOp, hh, hp]

/-- Claim C2 witness: instantiation of the amended theorem at the regular
column of the example read statement. -/
theorem regular_column_comparison_rejected_witness :
    (analyzeColumnOp (initWhereState exRead) rcol .lt 9).2 =
      some SemError.nonKeyColumnInWhere ∧
    (analyzeColumnOp (initWhereState exRead) rcol .lt 9).1.ops =
      (initWhereState exRead).ops ∧
    (analyzeColumnOp (initWhereState exRead) rcol .lt 9).1.key_ops =
      (initWhereState exRead).key_ops :=
  regular_column_comparison_rejected (initWhereState exRead) rcol .lt 9
    rfl rfl (by decide) (by decide)

/-- Claim C7 counterexample: on the read path a GT on the clustering column c
followed by an LT on the same column are both accepted by AnalyzeColumnOp,
refuting the claim that only the first comparison on a column can ever be
accepted for any pairing of comparison kinds. -/
theorem range_pair_same_column_accepted_cex :
    (analyzeColumnOp (initWhereState exRead) ccol .gt 3).2 = none ∧
    (analyzeColumnOp (analyzeColumnOp (initWhereState exRead) ccol .gt 3).1
      ccol .lt 5).2 = none := by
  decide

/-- Claim C7 (amended): repetitions on one column are rejected kind-by-kind:
an EQ after any prior EQ, LT-family or GT-family comparison on the column is
rejected; an LT-family comparison after a prior EQ or LT-family is rejected;
a GT-family comparison after a prior EQ or GT-family is rejected; but an
LT-family comparison with no prior EQ or LT-family (even after a GT-family)
on a clustering column of a read is accepted, and symmetrically for
GT-family, so not every kind pairing is rejected. -/
theorem same_column_repetition_rules (st : WhereExprState) (cd : ColumnDesc)
    (v : Nat) :
    ((st.op_counters.getD cd.index ColumnOpCounter.zero).eq_count > 0 ∨
     (st.op_counters.getD cd.index ColumnOpCounter.zero).lt_count > 0 ∨
     (st.op_counters.getD cd.index ColumnOpCounter.zero).gt_count > 0 →
      (analyzeColumnOp st cd .eq v).2 = some SemError.illogicalCondition) ∧
    (∀ op, op = YQLOp.lt ∨ op = YQLOp.lte →
      cd.is_hash = false → cd.is_primary = true → st.write_only = false →
      ((st.op_counters.getD cd.index ColumnOpCounter.zero).eq_count > 0 ∨
       (st.op_counters.getD cd.index ColumnOpCounter.zero).lt_count > 0 →
        (analyzeColumnOp st cd op v).2 = some SemError.illogicalRangeCondition) ∧
      ((st.op_counters.getD cd.index ColumnOpCounter.zero).eq_count = 0 →
       (st.op_counters.getD cd.index ColumnOpCounter.zero).lt_count = 0 →
        (analyzeColumnOp st cd op v).2 = none)) ∧
    (∀ op, op = YQLOp.gt ∨ op = YQLOp.gte →
      cd.is_hash = false → cd.is_primary = true → st.write_only = false →
      ((st.op_counters.getD cd.index ColumnOpCounter.zero).eq_count > 0 ∨
       (st.op_counters.getD cd.index ColumnOpCounter.zero).gt_count > 0 →
        (analyzeColumnOp st cd op v).2 = some SemError.illogicalRangeCondition) ∧
      ((st.op_counters.getD cd.index ColumnOpCounter.zero).eq_count = 0 →
       (st.op_counters.getD cd.index ColumnOpCounter.zero).gt_count = 0 →
        (analyzeColumnOp st cd op v).2 = none)) := by
  rw [List.getD_eq_getElem?_getD st.op_counters cd.index ColumnOpCounter.zero]
  refine ⟨?_, ?_, ?_⟩
  · intro h
    rcases h with h | h | h <;> simp [analyzeColumnOp, h]
  · rintro op hop hh hp hw
    constructor
    · intro h1
      rcases hop with rfl | rfl <;> rcases h1 with h1 | h1 <;>
        simp [analyzeColumnOp, hh, hp, hw, h1]
    · intro h1 h2
      rcases hop with rfl | rfl <;>
        simp [analyzeColumnOp, hh, hp, hw, h1, h2]
  · rintro op hop hh hp hw
    constructor
    · intro h1
      rcases hop with rfl | rfl <;> rcases h1 with h1 | h1 <;>
        simp [analyzeColumnOp, hh, hp, hw, h1]
    · intro h1 h2
      rcases hop with rfl | rfl <;>
        simp [analyzeColumnOp, hh, hp, hw, h1, h2]

/-- Claim C7 witness: instantiation of the amended repetition rules at the
clustering column of the example read statement, after one accepted GT. -/
theorem same_column_repetition_rules_witness :
    (analyzeColumnOp (analyzeColumnOp (initWhereState exRead) ccol .gt 3).1
      ccol .lt 5).2 = none := by
  have h := same_column_repetition_rules
    (analyzeColumnOp (initWhereState exRead) ccol .gt 3).1 ccol 5
  exact (h.2.1 YQLOp.lt (Or.inl rfl) rfl rfl (by decide)).2 (by decide) (by decide)

/-- Claim C8: an EQ comparison is accepted by AnalyzeColumnOp only if the
column has no prior EQ, LT-family or GT-family comparison recorded; with any
prior comparison it is rejected with the illogical-condition error; and an
accepted EQ on a hash column fills that column key slot with the EQ
operation. -/
theorem eq_acceptance_rules (st : WhereExprState) (cd : ColumnDesc) (v : Nat) :
    ((analyzeColumnOp st cd .eq v).2 = none →
      (st.op_counters.getD cd.index ColumnOpCounter.zero).eq_count = 0 ∧
      (st.op_counters.getD cd.index ColumnOpCounter.zero).lt_count = 0 ∧
      (st.op_counters.getD cd.index ColumnOpCounter.zero).gt_count = 0) ∧
    ((st.op_counters.getD cd.index ColumnOpCounter.zero).eq_count > 0 ∨
     (st.op_counters.getD cd.index ColumnOpCounter.zero).lt_count > 0 ∨
     (st.op_counters.getD cd.index ColumnOpCounter.zero).gt_count > 0 →
      (analyzeColumnOp st cd .eq v).2 = some SemError.illogicalCondition) ∧
    (cd.is_hash = true → cd.index < st.key_ops.length →
      (analyzeColumnOp st cd .eq v).2 = none →
      (analyzeColumnOp st cd .eq v).1.key_ops.getD cd.index none =
        some ⟨cd, v, YQLOp.eq⟩) := by
  rw [List.getD_eq_getElem?_getD st.op_counters cd.index ColumnOpCounter.zero]
  refine ⟨?_, ?_, ?_⟩
  · intro h
    refine ⟨?_, ?_, ?_⟩ <;> by_contra hc0 <;>
      simp [analyzeColumnOp, Nat.pos_of_ne_zero hc0] at h
  · intro h1
    rcases h1 with h1 | h1 | h1 <;> simp [analyzeColumnOp, h1]
  · intro hh hlen h
    have he : (st.op_counters[cd.index]?.getD ColumnOpCounter.zero).eq_count = 0 := by
      by_contra hc0
      simp [analyzeColumnOp, Nat.pos_of_ne_zero hc0] at h
    have hl : (st.op_counters[cd.index]?.getD ColumnOpCounter.zero).lt_count = 0 := by
      by_contra hc0
      simp [analyzeColumnOp, Nat.pos_of_ne_zero hc0] at h
    have hg : (st.op_counters[cd.index]?.getD ColumnOpCounter.zero).gt_count = 0 := by
      by_contra hc0
      simp [analyzeColumnOp, Nat.pos_of_ne_zero hc0] at h
    simp [analyzeColumnOp, hh, he, hl, hg, List.getD_eq_getElem?_getD,
      List.getElem?_set_eq_of_lt _ hlen]

/-- Claim C8 witness: instantiation at the hash column of the example read
statement with fresh counters. -/
theorem eq_acceptance_rules_witness :
    (analyzeColumnOp (initWhereState exRead) hcol .eq 5).1.key_ops.getD 0 none =
      some ⟨hcol, 5, YQLOp.eq⟩ :=
  (eq_acceptance_rules (initWhereState exRead) hcol 5).2.2 rfl (by decide)
    (by decide)

/-- Claim C9: a statement with no TTL expression always passes the USING
clause check; a statement with a TTL expression fails with the invalid-TTL
error carrying the two bounds exactly when the evaluated value lies outside
the inclusive range between the bounds; in particular TTL -1 fails and TTL 0
succeeds. -/
theorem ttl_validation (s : PTDmlStmt) :
    (∀ v, s.ttl_seconds = some v →
      (s.AnalyzeUsingClause =
          some (SemError.invalidTtl kMinTtlSeconds kMaxTtlSeconds) ↔
        (v < kMinTtlSeconds ∨ kMaxTtlSeconds < v))) ∧
    (s.ttl_seconds = none → s.AnalyzeUsingClause = none) ∧
    (s.ttl_seconds = some (-1) →
      s.AnalyzeUsingClause = some (SemError.invalidTtl 0 630720000)) ∧
    (s.ttl_seconds = some 0 → s.AnalyzeUsingClause = none) := by
  refine ⟨?_, ?_, ?_, ?_⟩
  · intro v hv
    constructor
    · intro h
      by_contra hcon
      push_neg at hcon
      have hval : IsValidTTLSeconds v = true := by
        simp [IsValidTTLSeconds]
        exact ⟨hcon.1, hcon.2⟩
      simp [PTDmlStmt.AnalyzeUsingClause, hv, hval] at h
    · intro h
      have hval : IsValidTTLSeconds v = false := by
        cases hbool : IsValidTTLSeconds v with
        | false => rfl
        | true =>
          exfalso
          simp [IsValidTTLSeconds, kMinTtlSeconds, kMaxTtlSeconds] at hbool
          simp only [kMinTtlSeconds, kMaxTtlSeconds] at h
          omega
      simp [PTDmlStmt.AnalyzeUsingClause, hv, hval]
  · intro hv; simp [PTDmlStmt.AnalyzeUsingClause, hv]
  · intro hv
    simp only [PTDmlStmt.AnalyzeUsingClause, hv]
    decide
  · intro hv
    simp only [PTDmlStmt.AnalyzeUsingClause, hv]
    decide

/-- Claim C9 witness: instantiation at a statement whose TTL evaluates
to -1. -/
theorem ttl_validation_witness :
    PTDmlStmt.AnalyzeUsingClause ⟨[], 0, 0, true, [], some (-1)⟩ =
      some (SemError.invalidTtl 0 630720000) :=
  (ttl_validation ⟨[], 0, 0, true, [], some (-1)⟩).2.2.1 rfl

/-- Claim C10: the system-keyspace read-only gate of LookupTable is evaluated
before the catalog lookup: a write whose resolved keyspace is the system
keyspace while the read-only flag is set fails with the system-namespace
error regardless of the catalog contents, and a table-not-found outcome
implies both that the catalog has no entry and that the read-only gate did
not fire. -/
theorem system_readonly_checked_before_catalog (env : LookupEnv) (wo : Bool)
    (name : TableName) :
    (isSystemNamespace (resolvedNamespace env name) = true → wo = true →
      env.system_namespace_readonly = true →
      LookupTable env wo name = .error SemError.systemNamespaceReadonly) ∧
    (LookupTable env wo name = .error SemError.tableNotFound →
      env.catalog (resolvedNamespace env name) name.table_name = none ∧
      ¬(isSystemNamespace (resolvedNamespace env name) = true ∧ wo = true ∧
        env.system_namespace_readonly = true)) := by
  constructor
  · intro h1 h2 h3
    simp [LookupTable, h1, h2, h3]
  · intro h
    simp only [LookupTable] at h
    by_cases hg : (isSystemNamespace (resolvedNamespace env name) && wo &&
        env.system_namespace_readonly) = true
    · rw [if_pos hg] at h
      exact absurd h (by simp)
    · rw [if_neg hg] at h
      refine ⟨?_, ?_⟩
      · cases hc : env.catalog (resolvedNamespace env name) name.table_name with
        | none => rfl
        | some sch => rw [hc] at h; exact absurd h (by simp)
      · rintro ⟨ha, hb, hcfl⟩
        rw [ha, hb, hcfl] at hg
        exact hg rfl

/-- Claim C10 witness: a write to a missing table of the system keyspace with
the read-only flag set fails with the system-namespace error, not
table-not-found. -/
theorem system_readonly_checked_before_catalog_witness :
    LookupTable ⟨"ks", true, fun _ _ => none⟩ true ⟨some "system", "t"⟩ =
      .error SemError.systemNamespaceReadonly :=
  (system_readonly_checked_before_catalog ⟨"ks", true, fun _ _ => none⟩ true
    ⟨some "system", "t"⟩).1 (by decide) rfl rfl

/-- Helper: when AnalyzeColumnOp returns an error, the filter list and the
key slots are unchanged; only the EQ counter may have been bumped. -/
theorem analyzeColumnOp_err_preserves (st : WhereExprState) (cd : ColumnDesc)
    (op : YQLOp) (v : Nat)
    (h : (analyzeColumnOp st cd op v).2.isSome = true) :
    (analyzeColumnOp st cd op v).1.ops = st.ops ∧
    (analyzeColumnOp st cd op v).1.key_ops = st.key_ops := by
  cases op <;> simp only [analyzeColumnOp] at h ⊢ <;>
    first
      | (split_ifs at h ⊢ <;> simp_all)
      | simp_all

/-- Helper: the leaf walk over an appended list first runs the prefix; when
the prefix succeeds the walk continues from its final state. -/
theorem analyzeLeaves_append (l1 : List Leaf) (init st : WhereExprState)
    (l2 : List Leaf) (h : analyzeLeaves init l1 = (st, none)) :
    analyzeLeaves init (l1 ++ l2) = analyzeLeaves st l2 := by
  induction l1 generalizing init with
  | nil =>
    simp only [analyzeLeaves] at h
    cases h
    rw [List.nil_append]
  | cons a as ih =>
    rw [List.cons_append]
    simp only [analyzeLeaves] at h ⊢
    rcases hc : analyzeColumnOp init a.desc a.yql_op a.value with ⟨st1, e⟩
    rw [hc] at h
    cases e with
    | some e0 => exact absurd h (by simp)
    | none => exact ih st1 h

/-- Claim C4 counterexample: a read over the example table whose WHERE leaves
are c LT 5 (accepted, pushed to the filter list) and then h LT 4 (rejected
with the partition-column error) fails analysis yet leaves the accepted
comparison in where_ops_, refuting the claim that partial analysis results
are discarded on failure. -/
theorem failure_retains_partial_ops_cex :
    (exRead.AnalyzeWhereExpr [⟨ccol, .lt, 5⟩, ⟨hcol, .lt, 4⟩]).err =
      some SemError.partitionColumnInRangeExpr ∧
    (exRead.AnalyzeWhereExpr [⟨ccol, .lt, 5⟩, ⟨hcol, .lt, 4⟩]).where_ops =
      [⟨ccol, 5, YQLOp.lt⟩] := by
  decide

/-- Claim C4 (amended): when a leaf of the WHERE clause fails analysis after
a prefix of accepted leaves, the statement keeps the partial results: the
final where_ops_ and key_where_ops_ equal the values accumulated from the
accepted prefix (the failing leaf adds nothing), and the error status alone
tells the caller to discard the statement. -/
theorem failure_retains_partial_results (s : PTDmlStmt) (leaves : List Leaf)
    (l : Leaf) (st : WhereExprState)
    (hok : analyzeLeaves (initWhereState s) leaves = (st, none))
    (herr : (analyzeColumnOp st l.desc l.yql_op l.value).2.isSome = true) :
    (s.AnalyzeWhereExpr (leaves ++ [l])).err.isSome = true ∧
    (s.AnalyzeWhereExpr (leaves ++ [l])).where_ops = st.ops ∧
    (s.AnalyzeWhereExpr (leaves ++ [l])).key_where_ops = st.key_ops := by
  have hsplit := analyzeLeaves_append leaves (initWhereState s) st [l] hok
  have hpres := analyzeColumnOp_err_preserves st l.desc l.yql_op l.value herr
  rcases hc : analyzeColumnOp st l.desc l.yql_op l.value with ⟨st1, e⟩
  rw [hc] at herr hpres
  cases e with
  | none => simp at herr
  | some e0 =>
    have hrun : analyzeLeaves (initWhereState s) (leaves ++ [l]) =
        (st1, some e0) := by
      rw [hsplit]
      simp only [analyzeLeaves]
      rw [hc]
    unfold PTDmlStmt.AnalyzeWhereExpr
    rw [hrun]
    exact ⟨rfl, hpres.1, hpres.2⟩

/-- Claim C4 witness: instantiation of the amended theorem at the example
read statement with accepted prefix c LT 5 and failing leaf h LT 4. -/
theorem failure_retains_partial_results_witness :
    (exRead.AnalyzeWhereExpr [⟨ccol, YQLOp.lt, 5⟩, ⟨hcol, YQLOp.lt, 4⟩]).err.isSome =
      true ∧
    (exRead.AnalyzeWhereExpr [⟨ccol, YQLOp.lt, 5⟩, ⟨hcol, YQLOp.lt, 4⟩]).where_ops =
      [⟨ccol, 5, YQLOp.lt⟩] ∧
    (exRead.AnalyzeWhereExpr [⟨ccol, YQLOp.lt, 5⟩, ⟨hcol, YQLOp.lt, 4⟩]).key_where_ops =
      [none] :=
  failure_retains_partial_results exRead [⟨ccol, YQLOp.lt, 5⟩]
    ⟨hcol, YQLOp.lt, 4⟩
    ⟨[⟨ccol, 5, YQLOp.lt⟩], [none],
      [ColumnOpCounter.zero, ⟨0, 1, 0⟩, ColumnOpCounter.zero,
        ColumnOpCounter.zero], false⟩
    (by decide) (by decide)

/-- Claim C1: for a write statement whose WHERE leaf walk succeeds, the
post-pass fails with the missing-key-condition error whenever some hash
column recorded zero EQ comparisons, and does not produce that error when
every hash column recorded at least one EQ and the range-key condition of
the write post-pass holds. -/
theorem write_requires_eq_on_every_hash_column (s : PTDmlStmt)
    (leaves : List Leaf) (st : WhereExprState)
    (hw : s.write_only = true)
    (hok : analyzeLeaves (initWhereState s) leaves = (st, none)) :
    ((∃ idx < s.num_hash_key_columns,
        (st.op_counters.getD idx ColumnOpCounter.zero).eq_count = 0) →
      (s.AnalyzeWhereExpr leaves).err = some SemError.missingKeyCondition) ∧
    ((∀ idx < s.num_hash_key_columns,
        (st.op_counters.getD idx ColumnOpCounter.zero).eq_count ≠ 0) →
      (s.StaticColumnArgsOnly = true →
        rangeKeysCount s st.op_counters =
          s.num_key_columns - s.num_hash_key_columns ∨
        rangeKeysCount s st.op_counters = 0) →
      (s.StaticColumnArgsOnly = false →
        rangeKeysCount s st.op_counters =
          s.num_key_columns - s.num_hash_key_columns) →
      (s.AnalyzeWhereExpr leaves).err ≠ some SemError.missingKeyCondition) := by
  unfold PTDmlStmt.AnalyzeWhereExpr
  rw [hok, hw]
  constructor
  · rintro ⟨idx, hidx, hzero⟩
    have hcond : ((List.range s.num_hash_key_columns).any fun i =>
        (st.op_counters.getD i ColumnOpCounter.zero).eq_count = 0) = true := by
      rw [List.any_eq_true]
      exact ⟨idx, List.mem_range.mpr hidx, by simpa using hzero⟩
    simp only [hcond]
    simp
  · intro hall hstat hnonstat
    have hcond : ¬ (((List.range s.num_hash_key_columns).any fun i =>
        (st.op_counters.getD i ColumnOpCounter.zero).eq_count = 0) = true) := by
      intro hcon
      rw [List.any_eq_true] at hcon
      obtain ⟨i, hmem, hp⟩ := hcon
      exact hall i (List.mem_range.mp hmem) (by simpa using hp)
    simp only [if_true, if_neg hcond]
    by_cases hS : s.StaticColumnArgsOnly = true
    · rw [if_pos hS]
      rcases hstat hS with hd | h0
      · by_cases h00 : rangeKeysCount s st.op_counters = 0
        · rw [if_neg (by tauto), if_pos h00]
          simp
        · rw [if_neg (by tauto), if_neg h00]
          simp
      · rw [if_neg (by tauto), if_pos h0]
        simp
    · rw [if_neg hS]
      have hSf : s.StaticColumnArgsOnly = false :=
        Bool.eq_false_iff.mpr (fun hcon => hS hcon)
      rw [if_neg (by simp [hnonstat hSf])]
      simp

/-- Claim C1 witness: instantiation at the static-only example write with
WHERE h EQ 5 on the spec table, which records an EQ on the single hash
column and satisfies the static-only range-key condition with zero range
EQ columns. -/
theorem write_requires_eq_on_every_hash_column_witness :
    (exWriteStatic.AnalyzeWhereExpr [⟨hcol, YQLOp.eq, 5⟩]).err ≠
      some SemError.missingKeyCondition :=
  (write_requires_eq_on_every_hash_column exWriteStatic [⟨hcol, YQLOp.eq, 5⟩]
      ⟨[], [some ⟨hcol, 5, YQLOp.eq⟩, none],
        [⟨1, 0, 0⟩, ColumnOpCounter.zero, ColumnOpCounter.zero,
          ColumnOpCounter.zero], true⟩ rfl (by decide)).2
    (by decide) (by decide) (by decide)

/-- Claim C6: for a write statement whose leaf walk succeeds and whose hash
columns all recorded an EQ, the post-pass on the range-EQ count behaves as
follows.  Static-only write: a count other than the number of clustering
columns and other than zero fails with the missing-key-condition error; a
count of zero succeeds and shrinks key_where_ops_ to hash-only length; a
full count succeeds leaving key_where_ops_ unchanged.  Not static-only: the
count must equal the number of clustering columns exactly, else the
missing-key-condition error is produced. -/
theorem write_range_key_postpass (s : PTDmlStmt) (leaves : List Leaf)
    (st : WhereExprState)
    (hw : s.write_only = true)
    (hok : analyzeLeaves (initWhereState s) leaves = (st, none))
    (hhash : ∀ idx < s.num_hash_key_columns,
      (st.op_counters.getD idx ColumnOpCounter.zero).eq_count ≠ 0) :
    (s.StaticColumnArgsOnly = true →
      ((rangeKeysCount s st.op_counters ≠
          s.num_key_columns - s.num_hash_key_columns ∧
        rangeKeysCount s st.op_counters ≠ 0) →
        (s.AnalyzeWhereExpr leaves).err = some SemError.missingKeyCondition) ∧
      (rangeKeysCount s st.op_counters = 0 →
        (s.AnalyzeWhereExpr leaves).err = none ∧
        (s.AnalyzeWhereExpr leaves).key_where_ops =
          st.key_ops.take s.num_hash_key_columns) ∧
      (rangeKeysCount s st.op_counters =
          s.num_key_columns - s.num_hash_key_columns →
        rangeKeysCount s st.op_counters ≠ 0 →
        (s.AnalyzeWhereExpr leaves).err = none ∧
        (s.AnalyzeWhereExpr leaves).key_where_ops = st.key_ops)) ∧
    (s.StaticColumnArgsOnly = false →
      (rangeKeysCount s st.op_counters ≠
          s.num_key_columns - s.num_hash_key_columns →
        (s.AnalyzeWhereExpr leaves).err = some SemError.missingKeyCondition) ∧
      (rangeKeysCount s st.op_counters =
          s.num_key_columns - s.num_hash_key_columns →
        (s.AnalyzeWhereExpr leaves).err = none ∧
        (s.AnalyzeWhereExpr leaves).key_where_ops = st.key_ops)) := by
  unfold PTDmlStmt.AnalyzeWhereExpr
  rw [hok, hw]
  have hcond : ¬ (((List.range s.num_hash_key_columns).any fun i =>
      (st.op_counters.getD i ColumnOpCounter.zero).eq_count = 0) = true) := by
    intro hcon
    rw [List.any_eq_true] at hcon
    obtain ⟨i, hmem, hp⟩ := hcon
    exact hhash i (List.mem_range.mp hmem) (by simpa using hp)
  simp only [if_true, if_neg hcond]
  constructor
  · intro hS
    rw [if_pos hS]
    refine ⟨?_, ?_, ?_⟩
    · intro hboth
      rw [if_pos hboth]
    · intro h0
      rw [if_neg (by tauto), if_pos h0]
      exact ⟨rfl, rfl⟩
    · intro hd hne
      rw [if_neg (by tauto), if_neg hne]
      exact ⟨rfl, rfl⟩
  · intro hS
    rw [if_neg (by simp [hS])]
    constructor
    · intro hne
      rw [if_pos hne]
    · intro hd
      rw [if_neg (by simp [hd])]
      exact ⟨rfl, rfl⟩

/-- Claim C6 witness: the static-only example write with WHERE h EQ 5 has
zero range-EQ columns, succeeds, and its key_where_ops_ shrinks to the
single hash slot; its sibling write of the regular column r with the same
WHERE fails with the missing-key-condition error. -/
theorem write_range_key_postpass_witness :
    (exWriteStatic.AnalyzeWhereExpr [⟨hcol, YQLOp.eq, 5⟩]).err = none ∧
    (exWriteStatic.AnalyzeWhereExpr [⟨hcol, YQLOp.eq, 5⟩]).key_where_ops =
      [some ⟨hcol, 5, YQLOp.eq⟩] :=
  ((write_range_key_postpass exWriteStatic [⟨hcol, YQLOp.eq, 5⟩]
      ⟨[], [some ⟨hcol, 5, YQLOp.eq⟩, none],
        [⟨1, 0, 0⟩, ColumnOpCounter.zero, ColumnOpCounter.zero,
          ColumnOpCounter.zero], true⟩ rfl (by decide) (by decide)).1
    (by decide)).2.1 (by decide)

/-- Helper: the reverse front-insertion loop puts the filled slots among the
first n key slots at the front of the filter list in ascending slot order. -/
theorem pushFrontHash_eq (key_ops : List (Option ColumnOp))
    (ops : List ColumnOp) (n : Nat) :
    pushFrontHash key_ops ops n = (key_ops.take n).filterMap id ++ ops := by
  induction n generalizing ops with
  | zero => simp [pushFrontHash]
  | succ n ih =>
    rw [pushFrontHash, ih, List.take_succ, List.filterMap_append,
      List.append_assoc]
    congr 1
    rw [List.getD_eq_getElem?_getD]
    cases hg : key_ops[n]? with
    | none => simp [hg]
    | some o => cases o <;> simp [hg]

/-- Claim C5: for a read statement whose leaf walk succeeds, the post-pass
with at least one unfilled hash slot clears key_where_ops_ and front-inserts
the filled hash slots (taken in reverse index order, so they end up at the
front of where_ops_ in ascending slot order before all previously collected
filters); with every hash slot filled the post-pass leaves both collections
unchanged. -/
theorem read_partial_hash_postpass (s : PTDmlStmt) (leaves : List Leaf)
    (st : WhereExprState)
    (hr : s.write_only = false)
    (hok : analyzeLeaves (initWhereState s) leaves = (st, none)) :
    ((∃ idx < s.num_hash_key_columns, st.key_ops.getD idx none = none) →
      (s.AnalyzeWhereExpr leaves).key_where_ops = [] ∧
      (s.AnalyzeWhereExpr leaves).where_ops =
        (st.key_ops.take s.num_hash_key_columns).filterMap id ++ st.ops ∧
      (s.AnalyzeWhereExpr leaves).err = none) ∧
    ((∀ idx < s.num_hash_key_columns, st.key_ops.getD idx none ≠ none) →
      (s.AnalyzeWhereExpr leaves).key_where_ops = st.key_ops ∧
      (s.AnalyzeWhereExpr leaves).where_ops = st.ops ∧
      (s.AnalyzeWhereExpr leaves).err = none) := by
  unfold PTDmlStmt.AnalyzeWhereExpr
  rw [hok, hr]
  constructor
  · rintro ⟨idx, hidx, hnone⟩
    have hcond : ((List.range s.num_hash_key_columns).any fun i =>
        (st.key_ops.getD i none).isNone) = true := by
      rw [List.any_eq_true]
      exact ⟨idx, List.mem_range.mpr hidx,
        Option.isNone_iff_eq_none.mpr hnone⟩
    simp only [Bool.false_eq_true, if_false, hcond, if_true]
    exact ⟨trivial, pushFrontHash_eq st.key_ops st.ops s.num_hash_key_columns,
      trivial⟩
  · intro hall
    have hcond : ¬ (((List.range s.num_hash_key_columns).any fun i =>
        (st.key_ops.getD i none).isNone) = true) := by
      intro hcon
      rw [List.any_eq_true] at hcon
      obtain ⟨i, hmem, hp⟩ := hcon
      exact hall i (List.mem_range.mp hmem) (Option.isNone_iff_eq_none.mp hp)
    simp only [Bool.false_eq_true, if_false, if_neg hcond]
    exact ⟨trivial, trivial, trivial⟩

/-- Claim C5 witness: a read over a table with two hash columns whose WHERE
clause fills only the second hash slot degrades to a scan: key_where_ops_
is cleared and the filled predicate moves to the front of where_ops_. -/
theorem read_partial_hash_postpass_witness :
    (exRead2.AnalyzeWhereExpr [⟨⟨1, true, true, false⟩, YQLOp.eq, 9⟩]).key_where_ops =
      [] ∧
    (exRead2.AnalyzeWhereExpr [⟨⟨1, true, true, false⟩, YQLOp.eq, 9⟩]).where_ops =
      [⟨⟨1, true, true, false⟩, 9, YQLOp.eq⟩] ∧
    (exRead2.AnalyzeWhereExpr [⟨⟨1, true, true, false⟩, YQLOp.eq, 9⟩]).err =
      none := by
  have h := (read_partial_hash_postpass exRead2
      [⟨⟨1, true, true, false⟩, YQLOp.eq, 9⟩]
      ⟨[], [none, some ⟨⟨1, true, true, false⟩, 9, YQLOp.eq⟩],
        [ColumnOpCounter.zero, ⟨1, 0, 0⟩, ColumnOpCounter.zero], false⟩
      rfl (by decide)).1 ⟨0, by decide, by decide⟩
  exact ⟨h.1, by rw [h.2.1]; decide, h.2.2⟩

/-- Claim C3 counterexample: a write whose only populated column arg sits at
the hash position satisfies all three conditions of the claim (some arg is
populated, none lies in the clustering range, every populated arg beyond the
key columns is static — vacuously), yet StaticColumnArgsOnly returns false,
refuting the claimed if-and-only-if. -/
theorem static_only_hash_args_cex :
    exHashArgsOnly.column_args.any Option.isSome = true ∧
    (∀ idx, exHashArgsOnly.num_hash_key_columns ≤ idx →
      idx < exHashArgsOnly.num_key_columns →
      exHashArgsOnly.column_args.getD idx none = none) ∧
    (∀ idx cd, exHashArgsOnly.num_key_columns ≤ idx →
      exHashArgsOnly.column_args.getD idx none = some cd →
      cd.is_static = true) ∧
    exHashArgsOnly.StaticColumnArgsOnly = false := by
  refine ⟨by decide, ?_, ?_, by decide⟩
  · intro idx h1 h2
    exact absurd (Nat.lt_of_le_of_lt h1 h2) (by decide)
  · intro idx cd h1 h2
    rw [List.getD_eq_getElem?_getD, List.getElem?_eq_none (by simpa using h1)]
      at h2
    exact Option.noConfusion h2

/-- Claim C3 (amended): StaticColumnArgsOnly returns true if and only if at
least one populated column arg at an index at or beyond num_key_columns is a
static column, no populated arg lies in the clustering-key index range, and
every populated arg at or beyond num_key_columns is a static column (a write
populating only key-column args is not static-only). -/
theorem StaticColumnArgsOnly_iff (s : PTDmlStmt) :
    s.StaticColumnArgsOnly = true ↔
      ((∃ idx cd, s.num_key_columns ≤ idx ∧
          s.column_args.getD idx none = some cd ∧ cd.is_static = true) ∧
       (∀ idx, s.num_hash_key_columns ≤ idx → idx < s.num_key_columns →
          s.column_args.getD idx none = none) ∧
       (∀ idx cd, s.num_key_columns ≤ idx →
          s.column_args.getD idx none = some cd → cd.is_static = true)) := by
  have hlt : ∀ idx cd, s.column_args.getD idx none = some cd →
      idx < s.column_args.length := by
    intro idx cd h
    by_contra hge
    rw [List.getD_eq_getElem?_getD,
      List.getElem?_eq_none (Nat.le_of_not_lt hge)] at h
    exact Option.noConfusion h
  unfold PTDmlStmt.StaticColumnArgsOnly
  by_cases hemp : s.column_args.isEmpty
  · have hnil : s.column_args = [] := List.isEmpty_iff.mp hemp
    rw [if_pos hemp, hnil]
    simp
  · rw [if_neg hemp]
    simp only [Bool.and_eq_true, Bool.not_eq_true']
    constructor
    · rintro ⟨⟨hws, hwr⟩, hwn⟩
      refine ⟨?_, ?_, ?_⟩
      · rw [List.any_eq_true] at hws
        obtain ⟨idx, hmem, hp⟩ := hws
        rw [List.mem_range'_1] at hmem
        cases hgd : s.column_args.getD idx none with
        | none => rw [hgd] at hp; exact absurd hp (by simp)
        | some cd =>
          rw [hgd] at hp
          exact ⟨idx, cd, hmem.1, hgd, hp⟩
      · intro idx h1 h2
        cases hgd : s.column_args.getD idx none with
        | none => rfl
        | some cd =>
          exfalso
          have hany : ((List.range' s.num_hash_key_columns
              (s.num_key_columns - s.num_hash_key_columns)).any fun i =>
                (s.column_args.getD i none).isSome) = true := by
            rw [List.any_eq_true]
            refine ⟨idx, List.mem_range'_1.mpr ⟨h1, by omega⟩, ?_⟩
            rw [hgd]
            rfl
          rw [hany] at hwr
          exact Bool.noConfusion hwr
      · intro idx cd h1 h2
        by_contra hns
        have hidxlt := hlt idx cd h2
        have hany : ((List.range' s.num_key_columns
            (s.column_args.length - s.num_key_columns)).any fun i =>
              match s.column_args.getD i none with
              | some cd => !cd.is_static
              | none => false) = true := by
          rw [List.any_eq_true]
          refine ⟨idx, List.mem_range'_1.mpr ⟨h1, by omega⟩, ?_⟩
          rw [h2]
          simpa using hns
        rw [hany] at hwn
        exact Bool.noConfusion hwn
    · rintro ⟨⟨idx, cd, hge, hgd, hstat⟩, hrange, hreg⟩
      have hidxlt := hlt idx cd hgd
      refine ⟨⟨?_, ?_⟩, ?_⟩
      · rw [List.any_eq_true]
        refine ⟨idx, List.mem_range'_1.mpr ⟨hge, by omega⟩, ?_⟩
        rw [hgd]
        exact hstat
      · rw [Bool.eq_false_iff]
        intro hcon
        rw [List.any_eq_true] at hcon
        obtain ⟨i, hmem, hp⟩ := hcon
        rw [List.mem_range'_1] at hmem
        rw [hrange i hmem.1 (by omega)] at hp
        exact absurd hp (by simp)
      · rw [Bool.eq_false_iff]
        intro hcon
        rw [List.any_eq_true] at hcon
        obtain ⟨i, hmem, hp⟩ := hcon
        rw [List.mem_range'_1] at hmem
        cases hgd2 : s.column_args.getD i none with
        | none => rw [hgd2] at hp; exact absurd hp (by simp)
        | some cd2 =>
          rw [hgd2] at hp
          simp only [Bool.not_eq_true'] at hp
          rw [hreg i cd2 hmem.1 hgd2] at hp
          exact Bool.noConfusion hp

end YbSql
